import Mathlib

/-!
Verification of the core of the divtxt/raft-consensus Raft engine against its
natural-language specification.

The Go sources are shallowly embedded: server identifiers are strings (the
empty string standing for the Go empty-string "none" value of votedFor), terms
and log indices are natural numbers, the Raft log is a Lean list of log
entries with 1-based indexing, and fallible Go functions returning an error
become Except-valued Lean functions.

Where a definition corresponds to a function of the repository whose body is
not among the provided sources (only its callers, tests or interface
declarations are), its doc comment starts with the words Modelled from the
spec and names the missing function; such definitions follow the
specification text.
-/

set_option maxRecDepth 4096

/-!
Go scalar types are embedded as follows: Nat becomes Nat (0 means no
term), Nat becomes Nat (entries are 1-based; 0 means before the log),
and String becomes String (the repository uses non-empty strings; the
empty string encodes the absent votedFor value). The Nat and String aliases
are written out so that arithmetic automation sees the underlying types.
-/

/-- An entry of the Raft log: a term number and an opaque command. -/
structure LogEntry where
  termNo : Nat
  command : String
  deriving DecidableEq, Repr

/-- The 10-entry Figure 7 leader-line log used throughout the repository's
tests: terms 1,1,1,4,4,5,5,6,6,6 with commands c1 .. c10
(makeLogTerms_Figure7LeaderLine and newIMLEWithDummyCommands). -/
def fig7LeaderLineLog : List LogEntry :=
  [⟨1, "c1"⟩, ⟨1, "c2"⟩, ⟨1, "c3"⟩, ⟨4, "c4"⟩, ⟨4, "c5"⟩,
   ⟨5, "c6"⟩, ⟨5, "c7"⟩, ⟨6, "c8"⟩, ⟨6, "c9"⟩, ⟨6, "c10"⟩]

/-- Index of the last entry of a log; 0 for the empty log
(inMemoryLog.GetIndexOfLastEntry). -/
def getIndexOfLastEntry (log : List LogEntry) : Nat := log.length

/-- Term of the entry at a 1-based index; none for index 0 or an index past
the end of the log (inMemoryLog.GetTermAtIndex, which rejects both). -/
def getTermAtIndex (log : List LogEntry) (li : Nat) : Option Nat :=
  if li = 0 then none
  else (log.get? (li - 1)).map LogEntry.termNo

/-- Modelled from the spec: the unguarded term lookup used by the
AppendEntries receiver at step 3, whose log implementation is not among the
sources. The spec (section 4.E) assigns term 0 to the position before the
log, so index 0 is mapped to 0; in-range indices agree with getTermAtIndex. -/
def termAtOrZero (log : List LogEntry) (li : Nat) : Nat :=
  if li = 0 then 0
  else ((log.get? (li - 1)).map LogEntry.termNo).getD 0

/-- Last index and last term of a log; term 0 when the log is empty
(GetIndexAndTermOfLastEntry helper). -/
def getIndexAndTermOfLastEntry (log : List LogEntry) : Nat × Nat :=
  (log.length, if log.length = 0 then 0 else termAtOrZero log log.length)

/-- An AppendEntries RPC (RpcAppendEntries). -/
structure AppendEntries where
  term : Nat
  prevLogIndex : Nat
  prevLogTerm : Nat
  entries : List LogEntry
  leaderCommit : Nat
  deriving DecidableEq, Repr

/-- An AppendEntries reply (RpcAppendEntriesReply). -/
structure AppendEntriesReply where
  term : Nat
  success : Bool
  deriving DecidableEq, Repr

/-- The receiver-side state touched by the AppendEntries handler: the
persistent current term and votedFor, the log together with the commit index
the log has been told about, and the consensus module's volatile
commitIndex. -/
structure AEState where
  currentTerm : Nat
  votedFor : String
  log : List LogEntry
  logCommitIndex : Nat
  commitIndex : Nat
  deriving DecidableEq, Repr

/-- Modelled from the spec: log.deleteFromIndexToEnd, whose implementation is
not among the sources. Its call site comments it as deleting the existing
entry at the given index and all that follow it, so the log is truncated to
the first li - 1 entries; per the spec (section 6) a log mutation must reject
an attempt to remove entries at or below the reported commit index. -/
def deleteFromIndexToEnd (logCommitIndex : Nat) (log : List LogEntry)
    (li : Nat) : Except String (List LogEntry) :=
  if li - 1 < logCommitIndex then
    .error "deleteFromIndexToEnd: index is at or below commitIndex"
  else
    .ok (log.take (li - 1))

/-- Truncate-then-append after a given index, rejecting an index below the
reported commit index or past the end of the log
(inMemoryLog.SetEntriesAfterIndex; the AppendEntries receiver calls it as
appendEntriesAfterIndex). -/
def appendEntriesAfterIndex (logCommitIndex : Nat) (log : List LogEntry)
    (entries : List LogEntry) (li : Nat) : Except String (List LogEntry) :=
  if li < logCommitIndex then
    .error "setEntriesAfterIndex: index is below commitIndex"
  else if log.length < li then
    .error "setEntriesAfterIndex: index is past the end of the log"
  else
    .ok (log.take li ++ entries)

/-- The AppendEntries receiver (ConsensusModule._processRpc_AppendEntries):
reject a stale term; reject when the log has no entry at prevLogIndex; on a
term mismatch at prevLogIndex delete the entries from prevLogIndex to the end
and reject; otherwise append the new entries after prevLogIndex and advance
commitIndex to the minimum of leaderCommit and the index of the last new
entry when leaderCommit is ahead. -/
def processRpc_AppendEntries (s : AEState) (ae : AppendEntries) :
    Except String (Bool × AEState) :=
  if ae.term < s.currentTerm then
    .ok (false, s)
  else if getIndexOfLastEntry s.log < ae.prevLogIndex then
    .ok (false, s)
  else if termAtOrZero s.log ae.prevLogIndex ≠ ae.prevLogTerm then
    match deleteFromIndexToEnd s.logCommitIndex s.log ae.prevLogIndex with
    | .error e => .error e
    | .ok log' => .ok (false, { s with log := log' })
  else
    match appendEntriesAfterIndex s.logCommitIndex s.log ae.entries ae.prevLogIndex with
    | .error e => .error e
    | .ok log' =>
      let s' : AEState := { s with log := log' }
      let indexOfLastNewEntry := getIndexOfLastEntry s'.log
      let s'' : AEState :=
        if ae.leaderCommit > s'.commitIndex then
          if ae.leaderCommit < indexOfLastNewEntry then
            { s' with commitIndex := ae.leaderCommit }
          else
            { s' with commitIndex := indexOfLastNewEntry }
        else s'
      .ok (true, s'')

/-- Modelled from the spec: the dispatch wrapper around the AppendEntries
receiver (spec section 4.G step 2), whose body is not among the sources.
A strictly higher term is adopted as follower (currentTerm set, votedFor
cleared) before the receiver logic runs; the reply carries the possibly
updated current term. -/
def rpc_RpcAppendEntries (s : AEState) (ae : AppendEntries) :
    Except String (AppendEntriesReply × AEState) :=
  let s0 : AEState :=
    if ae.term > s.currentTerm then
      { s with currentTerm := ae.term, votedFor := "" }
    else s
  match processRpc_AppendEntries s0 ae with
  | .error e => .error e
  | .ok (success, s') => .ok (⟨s'.currentTerm, success⟩, s')

/-- The commit-index listener of the in-memory log
(inMemoryLog.CommitIndexChanged): rejects a value below the previously
reported one and a value past the end of the log, otherwise stores it. -/
def commitIndexChanged (storedCommitIndex : Nat) (iole : Nat)
    (newCommitIndex : Nat) : Except String Nat :=
  if newCommitIndex < storedCommitIndex then
    .error "CommitIndexChanged: value is below current commitIndex"
  else if newCommitIndex > iole then
    .error "CommitIndexChanged: value is past the end of the log"
  else
    .ok newCommitIndex

/-- A RequestVote RPC (RpcRequestVote). -/
structure RpcRequestVote where
  term : Nat
  lastLogIndex : Nat
  lastLogTerm : Nat
  deriving DecidableEq, Repr

/-- A RequestVote reply (RpcRequestVoteReply). -/
structure RpcRequestVoteReply where
  term : Nat
  voteGranted : Bool
  deriving DecidableEq, Repr

/-- The receiver-side state touched by the RequestVote handler. The field
electionTimerTouchedAt records the time of the most recent election-timer
reset, and setVotedForCalls counts the calls made to the durable SetVotedFor
setter (instrumentation; it carries no behaviour). -/
structure RVState where
  currentTerm : Nat
  votedFor : String
  log : List LogEntry
  electionTimerTouchedAt : Option Nat
  setVotedForCalls : Nat
  deriving DecidableEq, Repr

/-- Modelled from the spec: becomeFollowerWithTerm (spec section 4.K), whose
body is not among the sources. Becoming follower at a term durably sets
currentTerm to it, clears votedFor, and resets the election timer. Clearing
votedFor is a durable write, so the write counter advances. -/
def becomeFollowerWithTerm (s : RVState) (t : Nat) (now : Nat) : RVState :=
  { s with currentTerm := t, votedFor := "",
           electionTimerTouchedAt := some now,
           setVotedForCalls := s.setVotedForCalls + 1 }

/-- The RequestVote receiver (passiveConsensusModule.rpc_RpcRequestVote):
reject a stale term; adopt a strictly higher term as follower; grant the vote
exactly when votedFor is empty or equals the requesting peer and the
candidate's log is at least as up to date, durably setting votedFor only when
it was empty and touching the election timer on every grant. -/
def rpc_RpcRequestVote (s : RVState) (fromPeer : String)
    (rv : RpcRequestVote) (now : Nat) : RpcRequestVoteReply × RVState :=
  let serverTerm := s.currentTerm
  if rv.term < serverTerm then
    (⟨s.currentTerm, false⟩, s)
  else
    let s1 : RVState :=
      if rv.term > serverTerm then becomeFollowerWithTerm s rv.term now else s
    let lastPair := getIndexAndTermOfLastEntry s1.log
    let lastEntryIndex := lastPair.1
    let lastEntryTerm := lastPair.2
    let senderIsAtLeastAsUpToDate : Bool :=
      if rv.lastLogTerm ≠ lastEntryTerm then
        rv.lastLogTerm > lastEntryTerm
      else
        rv.lastLogIndex ≥ lastEntryIndex
    if (s1.votedFor = "" ∨ s1.votedFor = fromPeer) ∧ senderIsAtLeastAsUpToDate then
      let s2 : RVState :=
        if s1.votedFor = "" then
          { s1 with votedFor := fromPeer, setVotedForCalls := s1.setVotedForCalls + 1 }
        else s1
      let s3 : RVState := { s2 with electionTimerTouchedAt := some now }
      (⟨s3.currentTerm, true⟩, s3)
    else
      (⟨s1.currentTerm, false⟩, s1)

/-- The candidate's at-least-as-up-to-date predicate as the specification
words it (section 4.F step 3): the request's last term is strictly greater
than the receiver's last entry term, or the terms are equal and the request's
last index is at least the receiver's last entry index. -/
def specUpToDate (log : List LogEntry) (rv : RpcRequestVote) : Prop :=
  rv.lastLogTerm > (getIndexAndTermOfLastEntry log).2 ∨
    (rv.lastLogTerm = (getIndexAndTermOfLastEntry log).2 ∧
      rv.lastLogIndex ≥ (getIndexAndTermOfLastEntry log).1)

instance (log : List LogEntry) (rv : RpcRequestVote) :
    Decidable (specUpToDate log rv) := by
  unfold specUpToDate; infer_instance

/-- The cluster descriptor (ClusterInfo): this server's id, the other
servers' ids, the cluster size and the quorum size. -/
structure ClusterInfo where
  thisServerId : String
  peerServerIds : List String
  clusterSize : Nat
  quorumSizeForCluster : Nat
  deriving DecidableEq, Repr

/-- Quorum size for a cluster of the given size: half the size plus one
(QuorumSizeForClusterSize). -/
def QuorumSizeForClusterSize (clusterSize : Nat) : Nat :=
  clusterSize / 2 + 1

/-- The id-scanning loop of NewClusterInfo: walk the id list rejecting an
empty id and an id already seen, collecting every id other than this server's
into the peer list; returns the set of ids seen and the peers. -/
def scanServerIds (thisServerId : String) :
    List String → List String → List String →
    Except String (List String × List String)
  | [], seen, peers => .ok (seen, peers)
  | serverId :: rest, seen, peers =>
    if serverId.length = 0 then
      .error "allServerIds contains empty string"
    else if serverId ∈ seen then
      .error "allServerIds contains duplicate value"
    else
      scanServerIds thisServerId rest (serverId :: seen)
        (if serverId ≠ thisServerId then peers ++ [serverId] else peers)

/-- The cluster-descriptor constructor (NewClusterInfo): rejects an empty id
list, an empty thisServerId, an empty or duplicate id in the list, and a
thisServerId absent from the list; otherwise builds the descriptor with
quorum size clusterSize / 2 + 1. -/
def NewClusterInfo (allServerIds : List String) (thisServerId : String) :
    Except String ClusterInfo :=
  if allServerIds.length < 1 then
    .error "allServerIds must have at least 1 element"
  else if thisServerId.length = 0 then
    .error "thisServerId is empty string"
  else
    match scanServerIds thisServerId allServerIds [] [] with
    | .error e => .error e
    | .ok (seen, peers) =>
      if thisServerId ∈ seen then
        .ok ⟨thisServerId, peers, allServerIds.length,
             QuorumSizeForClusterSize allServerIds.length⟩
      else
        .error "allServerIds does not contain thisServerId"

/-- Modelled from the spec: CandidateVolatileState (spec sections 3 and 4.C),
whose implementation is not among the sources (only its tests are). The set
of servers that granted their vote, initialized with this server's own id,
and the precomputed quorum size. -/
structure CandidateVolatileState where
  granted : List String
  requiredVotes : Nat
  deriving DecidableEq, Repr

/-- Modelled from the spec: NewCandidateVolatileState. The tally starts with
this server's own vote and the cluster's quorum size. -/
def newCandidateVolatileState (ci : ClusterInfo) : CandidateVolatileState :=
  ⟨[ci.thisServerId], ci.quorumSizeForCluster⟩

/-- Modelled from the spec: CandidateVolatileState.AddVoteFrom (spec section
4.C). A peer id outside the cluster is an error; a duplicate vote changes
nothing; the returned flag reports whether the tally is at or past quorum. -/
def addVoteFrom (ci : ClusterInfo) (cvs : CandidateVolatileState)
    (peer : String) : Except String (Bool × CandidateVolatileState) :=
  if peer ∈ ci.peerServerIds then
    let granted' := if peer ∈ cvs.granted then cvs.granted else peer :: cvs.granted
    let cvs' : CandidateVolatileState := { cvs with granted := granted' }
    .ok (decide (granted'.length ≥ cvs'.requiredVotes), cvs')
  else
    .error "AddVoteFrom: unknown peer"

/-- Fold a sequence of addVoteFrom calls over a tally; a rejected call leaves
the tally unchanged (the callers treat such an error as fatal, so this case
never arises for valid peer ids). -/
def applyVotes (ci : ClusterInfo) (cvs : CandidateVolatileState) :
    List String → CandidateVolatileState
  | [] => cvs
  | peer :: rest =>
    match addVoteFrom ci cvs peer with
    | .ok (_, cvs') => applyVotes ci cvs' rest
    | .error _ => applyVotes ci cvs rest

/-- Modelled from the spec: LeaderVolatileState (spec sections 3 and 4.D),
whose implementation is not among the sources (only its tests and callers
are). Per-peer nextIndex and matchIndex. -/
structure LeaderVolatileState where
  nextIndex : String → Nat
  matchIndex : String → Nat

/-- Modelled from the spec: LeaderVolatileState.DecrementNextIndex (spec
section 4.D): decrement the peer's nextIndex with floor 1. -/
def decrementNextIndex (lvs : LeaderVolatileState) (peer : String) :
    LeaderVolatileState :=
  { lvs with nextIndex :=
      Function.update lvs.nextIndex peer (max (lvs.nextIndex peer - 1) 1) }

/-- Modelled from the spec: LeaderVolatileState.SetMatchIndexAndNextIndex
(spec section 4.D): set the peer's matchIndex to the given value and its
nextIndex to that value plus one. -/
def setMatchIndexAndNextIndex (lvs : LeaderVolatileState) (peer : String)
    (matchValue : Nat) : LeaderVolatileState :=
  { nextIndex := Function.update lvs.nextIndex peer (matchValue + 1),
    matchIndex := Function.update lvs.matchIndex peer matchValue }

/-- Outcome of processing an AppendEntries reply while leader: the reply is
discarded as stale, a higher term forces a conversion to follower, or the
leader volatile state is updated. -/
inductive AEReplyOutcome where
  | stale
  | higherTerm (newTerm : Nat)
  | updated (lvs : LeaderVolatileState)

/-- Modelled from the spec: the AppendEntries-reply handler run while leader
(spec section 4.I), whose implementation is not among the sources (only its
tests are). A reply to an RPC sent in a different term is discarded; a reply
carrying a higher term converts the server to follower; a success reply sets
the peer's matchIndex to the sent RPC's prevLogIndex plus its entry count and
nextIndex to one more; a failure reply decrements the peer's nextIndex with
floor 1. Updates for a peer outside the cluster are rejected. -/
def processAppendEntriesReply (peers : List String) (currentTerm : Nat)
    (lvs : LeaderVolatileState) (peer : String) (sentRpc : AppendEntries)
    (reply : AppendEntriesReply) : Except String AEReplyOutcome :=
  if sentRpc.term ≠ currentTerm then
    .ok .stale
  else if reply.term > currentTerm then
    .ok (.higherTerm reply.term)
  else if peer ∈ peers then
    if reply.success then
      .ok (.updated (setMatchIndexAndNextIndex lvs peer
        (sentRpc.prevLogIndex + sentRpc.entries.length)))
    else
      .ok (.updated (decrementNextIndex lvs peer))
  else
    .error "unknown peer"

/-- The three server roles (ServerState). -/
inductive ServerRole where
  | follower
  | candidate
  | leader
  deriving DecidableEq, Repr

/-- Modelled from the spec: the state driven by the tick engine (spec
sections 4.J and 4.K), whose implementation is not among the sources (only
its tests are). Outbound RPCs are not tracked; peerMatchIndex lists the
leader's matchIndex per peer; the election timer is the absolute expiry
instant together with the timeout length used for the next reset. -/
structure TickState where
  thisId : String
  peerIds : List String
  quorumSize : Nat
  currentTerm : Nat
  votedFor : String
  log : List LogEntry
  commitIndex : Nat
  role : ServerRole
  granted : List String
  peerNextIndex : List (String × Nat)
  peerMatchIndex : List (String × Nat)
  timerExpiry : Nat
  timeoutLen : Nat

/-- Modelled from the spec: the quorum count for a candidate commit index
(spec section 4.J): the number of servers known to hold the entry at index n,
counting this server through its own index of last entry. -/
def countServersWithMatch (s : TickState) (n : Nat) : Nat :=
  (if getIndexOfLastEntry s.log ≥ n then 1 else 0) +
    (s.peerMatchIndex.filter (fun pm => pm.2 ≥ n)).length

/-- Modelled from the spec: the commit-index recomputation (spec section 4.J,
rule RFS-L4): the highest index N above commitIndex such that a majority of
servers have matchIndex at least N and the entry at N carries the current
term; commitIndex when there is none. -/
def advanceCommitIndex (s : TickState) : Nat :=
  (List.range (getIndexOfLastEntry s.log + 1)).foldl
    (fun acc n =>
      if n > s.commitIndex ∧ countServersWithMatch s n ≥ s.quorumSize ∧
          termAtOrZero s.log n = s.currentTerm then
        max acc n
      else acc)
    s.commitIndex

/-- Modelled from the spec: the transition into leader (spec section 4.K):
nextIndex starts at the index of last entry plus one for every peer and
matchIndex at 0. -/
def becomeLeader (s : TickState) : TickState :=
  { s with role := .leader,
           peerNextIndex := s.peerIds.map (fun p => (p, getIndexOfLastEntry s.log + 1)),
           peerMatchIndex := s.peerIds.map (fun p => (p, 0)) }

/-- Modelled from the spec: the start of an election (spec section 4.K,
Follower to Candidate): durably increment currentTerm, vote for self, build a
fresh tally, reset the election timer; when the tally already satisfies the
quorum (a single-server cluster) become leader at once. -/
def startElection (s : TickState) (now : Nat) : TickState :=
  let s1 : TickState :=
    { s with currentTerm := s.currentTerm + 1,
             votedFor := s.thisId,
             role := .candidate,
             granted := [s.thisId],
             timerExpiry := now + s.timeoutLen }
  if s1.granted.length ≥ s1.quorumSize then becomeLeader s1 else s1

/-- Modelled from the spec: one tick (spec section 4.J). A follower or
candidate whose election timer has expired starts an election; a leader
recomputes the commit index (the emission of AppendEntries to peers is not
modelled; the single-server scenarios under verification have no peers). -/
def tick (s : TickState) (now : Nat) : TickState :=
  match s.role with
  | .leader => { s with commitIndex := advanceCommitIndex s }
  | _ => if now ≥ s.timerExpiry then startElection s now else s

/-- The single-server scenario of the specification (section 8 scenario 4 and
the solo tests): cluster of just server 101, follower at term 7 with the
Figure 7 leader-line log, commit index 0, election timer expiring at
instant 150 with timeout length 150. -/
def soloStartState : TickState :=
  { thisId := "101", peerIds := [], quorumSize := 1,
    currentTerm := 7, votedFor := "", log := fig7LeaderLineLog,
    commitIndex := 0, role := .follower, granted := [],
    peerNextIndex := [], peerMatchIndex := [],
    timerExpiry := 150, timeoutLen := 150 }

/-- A listener registered on a watched index: it receives the old and the new
value and may report an error. -/
def IndexChangeListener := Nat → Nat → Option String

/-- A watched log index (logindex.WatchedIndex): the stored value and the
registered listeners, in registration order. The lock is not modelled; the
embedded operations correspond to calls made with the lock held. -/
structure WatchedIndex where
  value : Nat
  listeners : List IndexChangeListener

/-- The listener loop of WatchedIndex.UnsafeSet: call each listener in order
with the old and the new value, stopping at the first error; returns how many
listeners were invoked and the error of the last one invoked, if any. -/
def fireListeners : List IndexChangeListener → Nat → Nat →
    Nat × Option String
  | [], _, _ => (0, none)
  | f :: rest, old, new =>
    match f old new with
    | some e => (1, some e)
    | none =>
      let r := fireListeners rest old new
      (r.1 + 1, r.2)

/-- WatchedIndex.UnsafeSet: store the new value first, then call the
registered listeners in order, stopping at the first error; the error, if
any, is returned and the stored value is not rolled back. The middle
component counts the listeners that were invoked. -/
def unsafeSet (wi : WatchedIndex) (new : Nat) :
    WatchedIndex × Nat × Option String :=
  let old := wi.value
  let wi' : WatchedIndex := { wi with value := new }
  let r := fireListeners wi'.listeners old new
  (wi', r.1, r.2)

theorem scanServerIds_ok_iff (thisId : String) :
    ∀ (ids seen peers : List String),
      (∃ r, scanServerIds thisId ids seen peers = Except.ok r) ↔
        ((∀ id ∈ ids, id.length ≠ 0) ∧ ids.Nodup ∧ ∀ id ∈ ids, id ∉ seen) := by
  intro ids
  induction ids with
  | nil =>
    intro seen peers
    simp [scanServerIds]
  | cons a rest ih =>
    intro seen peers
    by_cases ha : a.length = 0
    · simp only [scanServerIds, if_pos ha]
      constructor
      · rintro ⟨r, hr⟩
        exact Except.noConfusion hr
      · rintro ⟨h1, -, -⟩
        exact absurd ha (h1 a (List.mem_cons_self a rest))
    · by_cases hseen : a ∈ seen
      · simp only [scanServerIds, if_neg ha, if_pos hseen]
        constructor
        · rintro ⟨r, hr⟩
          exact Except.noConfusion hr
        · rintro ⟨-, -, h3⟩
          exact absurd hseen (h3 a (List.mem_cons_self a rest))
      · simp only [scanServerIds, if_neg ha, if_neg hseen]
        rw [ih]
        constructor
        · rintro ⟨h1, h2, h3⟩
          refine ⟨?_, ?_, ?_⟩
          · intro id hid
            rcases List.mem_cons.mp hid with h | h
            · exact h ▸ ha
            · exact h1 id h
          · refine List.nodup_cons.mpr ⟨fun hmem => ?_, h2⟩
            exact (h3 a hmem) (List.mem_cons_self a seen)
          · intro id hid
            rcases List.mem_cons.mp hid with h | h
            · exact h ▸ hseen
            · intro hm
              exact (h3 id h) (List.mem_cons_of_mem a hm)
        · rintro ⟨h1, h2, h3⟩
          have hanr : a ∉ rest := (List.nodup_cons.mp h2).1
          refine ⟨?_, (List.nodup_cons.mp h2).2, ?_⟩
          · intro id hid
            exact h1 id (List.mem_cons_of_mem a hid)
          · intro id hid hm
            rcases List.mem_cons.mp hm with h | h
            · exact hanr (h ▸ hid)
            · exact (h3 id (List.mem_cons_of_mem a hid)) h

theorem scanServerIds_seen_spec (thisId x : String) :
    ∀ (ids seen peers seen' peers' : List String),
      scanServerIds thisId ids seen peers = Except.ok (seen', peers') →
      (x ∈ seen' ↔ x ∈ seen ∨ x ∈ ids) := by
  intro ids
  induction ids with
  | nil =>
    intro seen peers seen' peers' h
    simp only [scanServerIds, Except.ok.injEq, Prod.mk.injEq] at h
    rw [← h.1]
    simp
  | cons a rest ih =>
    intro seen peers seen' peers' h
    simp only [scanServerIds] at h
    by_cases h1 : a.length = 0
    · rw [if_pos h1] at h
      exact Except.noConfusion h
    · rw [if_neg h1] at h
      by_cases h2 : a ∈ seen
      · rw [if_pos h2] at h
        exact Except.noConfusion h
      · rw [if_neg h2] at h
        rw [ih _ _ _ _ h]
        simp only [List.mem_cons]
        tauto

theorem stringLength_zero_iff (s : String) : s.length = 0 ↔ s = "" := by
  cases s with
  | mk data =>
    simp [String.length, String.ext_iff, List.length_eq_zero]

/-- C8: the cluster descriptor constructor accepts exactly the nonempty lists
of distinct non-empty server ids that contain this server's id, and computes
the quorum size as half the cluster size plus one; every other input is an
error. -/
theorem newClusterInfo_accepts_iff (ids : List String) (thisId : String) :
    ((∃ ci, NewClusterInfo ids thisId = Except.ok ci) ↔
      (ids ≠ [] ∧ (∀ id ∈ ids, id ≠ "") ∧ ids.Nodup ∧ thisId ∈ ids)) ∧
    (∀ ci, NewClusterInfo ids thisId = Except.ok ci →
      ci.thisServerId = thisId ∧ ci.clusterSize = ids.length ∧
        ci.quorumSizeForCluster = ids.length / 2 + 1) := by
  by_cases hlen : ids.length < 1
  · have hids : ids = [] := List.length_eq_zero.mp (by omega)
    constructor
    · constructor
      · rintro ⟨ci, hci⟩
        unfold NewClusterInfo at hci
        rw [if_pos hlen] at hci
        exact Except.noConfusion hci
      · rintro ⟨hnil, -, -, -⟩
        exact absurd hids hnil
    · intro ci hci
      unfold NewClusterInfo at hci
      rw [if_pos hlen] at hci
      exact Except.noConfusion hci
  · by_cases hthis : thisId.length = 0
    · constructor
      · constructor
        · rintro ⟨ci, hci⟩
          unfold NewClusterInfo at hci
          rw [if_neg hlen, if_pos hthis] at hci
          exact Except.noConfusion hci
        · rintro ⟨-, hne, -, hin⟩
          exact absurd ((stringLength_zero_iff thisId).mp hthis) (hne thisId hin)
      · intro ci hci
        unfold NewClusterInfo at hci
        rw [if_neg hlen, if_pos hthis] at hci
        exact Except.noConfusion hci
    · cases hscan : scanServerIds thisId ids [] [] with
      | error e =>
        have hnotok : ¬ ∃ r, scanServerIds thisId ids [] [] = Except.ok r := by
          rw [hscan]
          rintro ⟨r, hr⟩
          exact Except.noConfusion hr
        rw [scanServerIds_ok_iff] at hnotok
        constructor
        · constructor
          · rintro ⟨ci, hci⟩
            unfold NewClusterInfo at hci
            rw [if_neg hlen, if_neg hthis, hscan] at hci
            exact Except.noConfusion hci
          · rintro ⟨hnil, hne, hnd, hin⟩
            refine absurd ⟨?_, hnd, by simp⟩ hnotok
            intro id hid h0
            exact (hne id hid) ((stringLength_zero_iff id).mp h0)
        · intro ci hci
          unfold NewClusterInfo at hci
          rw [if_neg hlen, if_neg hthis, hscan] at hci
          exact Except.noConfusion hci
      | ok r =>
        obtain ⟨seen, peers⟩ := r
        have hconds : (∀ id ∈ ids, id.length ≠ 0) ∧ ids.Nodup ∧
            ∀ id ∈ ids, id ∉ ([] : List String) := by
          rw [← scanServerIds_ok_iff thisId ids [] []]
          exact ⟨_, hscan⟩
        have hseen : ∀ x, x ∈ seen ↔ x ∈ ids := by
          intro x
          have := scanServerIds_seen_spec thisId x ids [] [] seen peers hscan
          simpa using this
        by_cases hmem : thisId ∈ seen
        · have hres : NewClusterInfo ids thisId =
              Except.ok ⟨thisId, peers, ids.length, QuorumSizeForClusterSize ids.length⟩ := by
            simp only [NewClusterInfo, if_neg hlen, if_neg hthis, hscan]
            rw [if_pos hmem]
          constructor
          · constructor
            · intro _
              refine ⟨?_, ?_, hconds.2.1, (hseen thisId).mp hmem⟩
              · intro hnil
                rw [hnil] at hlen
                simp at hlen
              · intro id hid heq
                exact (hconds.1 id hid) ((stringLength_zero_iff id).mpr heq)
            · intro _
              exact ⟨_, hres⟩
          · intro ci hci
            rw [hres] at hci
            have hinj := Except.ok.inj hci
            rw [← hinj]
            exact ⟨rfl, rfl, rfl⟩
        · have hres : NewClusterInfo ids thisId =
              Except.error "allServerIds does not contain thisServerId" := by
            simp only [NewClusterInfo, if_neg hlen, if_neg hthis, hscan]
            rw [if_neg hmem]
          constructor
          · constructor
            · rintro ⟨ci, hci⟩
              rw [hres] at hci
              exact Except.noConfusion hci
            · rintro ⟨-, -, -, hin⟩
              exact absurd ((hseen thisId).mpr hin) hmem
          · intro ci hci
            rw [hres] at hci
            exact Except.noConfusion hci

/-- Witness for C8 at concrete inputs: the five-server test cluster is
accepted, and its quorum size comes out as 3. -/
theorem newClusterInfo_accepts_iff_witness :
    (∃ ci, NewClusterInfo ["101", "102", "103", "104", "105"] "101" = Except.ok ci) ∧
      (∀ ci, NewClusterInfo ["101", "102", "103", "104", "105"] "101" = Except.ok ci →
        ci.quorumSizeForCluster = 3) := by
  constructor
  · exact (newClusterInfo_accepts_iff ["101", "102", "103", "104", "105"] "101").1.mpr
      (by decide)
  · intro ci hci
    have h := (newClusterInfo_accepts_iff ["101", "102", "103", "104", "105"] "101").2 ci hci
    simpa using h.2.2

theorem fireListeners_all_ok (old new : Nat) :
    ∀ (ls : List IndexChangeListener), (∀ f ∈ ls, f old new = none) →
      fireListeners ls old new = (ls.length, none) := by
  intro ls
  induction ls with
  | nil => intro _; rfl
  | cons f rest ih =>
    intro h
    have hf : f old new = none := h f (List.mem_cons_self f rest)
    simp only [fireListeners, hf, ih (fun g hg => h g (List.mem_cons_of_mem f hg)),
      List.length_cons]

theorem fireListeners_stops_at_error (old new : Nat) (e : String)
    (f : IndexChangeListener) (l2 : List IndexChangeListener) :
    ∀ (l1 : List IndexChangeListener), (∀ g ∈ l1, g old new = none) →
      f old new = some e →
      fireListeners (l1 ++ f :: l2) old new = (l1.length + 1, some e) := by
  intro l1
  induction l1 with
  | nil =>
    intro _ hf
    simp only [List.nil_append, fireListeners, hf, List.length_nil]
  | cons g rest ih =>
    intro h hf
    have hg : g old new = none := h g (List.mem_cons_self g rest)
    have := ih (fun g' hg' => h g' (List.mem_cons_of_mem g hg')) hf
    simp only [List.cons_append, fireListeners, hg, List.append_eq, this, List.length_cons]

/-- C9: UnsafeSet stores the new value before any listener runs; when a
listener reports an error the remaining listeners are not invoked and the
error is returned, but the stored index remains the new value - the change is
not rolled back on error. -/
theorem unsafeSet_spec (wi : WatchedIndex) (v : Nat) :
    (unsafeSet wi v).1.value = v ∧
    (unsafeSet wi v).1.listeners = wi.listeners ∧
    ((∀ f ∈ wi.listeners, f wi.value v = none) →
      unsafeSet wi v = ({ wi with value := v }, wi.listeners.length, none)) ∧
    (∀ (l1 l2 : List IndexChangeListener) (f : IndexChangeListener) (e : String),
      wi.listeners = l1 ++ f :: l2 →
      (∀ g ∈ l1, g wi.value v = none) →
      f wi.value v = some e →
      unsafeSet wi v = ({ wi with value := v }, l1.length + 1, some e)) := by
  refine ⟨rfl, rfl, ?_, ?_⟩
  · intro h
    simp only [unsafeSet]
    rw [fireListeners_all_ok wi.value v wi.listeners h]
  · intro l1 l2 f e hls h1 hf
    simp only [unsafeSet, hls]
    rw [fireListeners_stops_at_error wi.value v e f l2 l1 h1 hf]

/-- Witness for C9 at a concrete input, mirroring the repository's
WatchedIndex test: with a verifier-style first listener that rejects the
value 10 and a second listener, setting the index to 10 stores 10, invokes
only the first listener, and returns its error. -/
theorem unsafeSet_spec_witness :
    unsafeSet
        ⟨8, [fun _ n => if n = 10 then some "fErr" else none, fun _ _ => none]⟩ 10 =
      (⟨10, [fun _ n => if n = 10 then some "fErr" else none, fun _ _ => none]⟩,
        1, some "fErr") := by
  have h := (unsafeSet_spec
    ⟨8, [fun _ n => if n = 10 then some "fErr" else none, fun _ _ => none]⟩ 10).2.2.2
    [] [fun _ _ => none] (fun _ n => if n = 10 then some "fErr" else none) "fErr"
    rfl (by intro g hg; cases hg) rfl
  simpa using h

theorem applyVotes_granted_mono (ci : ClusterInfo) (x : String) :
    ∀ (vs : List String) (cvs : CandidateVolatileState),
      x ∈ cvs.granted → x ∈ (applyVotes ci cvs vs).granted := by
  intro vs
  induction vs with
  | nil => intro cvs h; exact h
  | cons v rest ih =>
    intro cvs h
    simp only [applyVotes]
    by_cases hv : v ∈ ci.peerServerIds
    · simp only [addVoteFrom, if_pos hv]
      apply ih
      by_cases hg : v ∈ cvs.granted
      · simpa [hg] using h
      · simp only [if_neg hg]
        exact List.mem_cons_of_mem v h
    · simp only [addVoteFrom, if_neg hv]
      exact ih cvs h

theorem applyVotes_vote_recorded (ci : ClusterInfo) (p : String)
    (hp : p ∈ ci.peerServerIds) :
    ∀ (vs : List String) (cvs : CandidateVolatileState),
      p ∈ vs → p ∈ (applyVotes ci cvs vs).granted := by
  intro vs
  induction vs with
  | nil =>
    intro cvs h
    exact absurd h (List.not_mem_nil p)
  | cons v rest ih =>
    intro cvs hmem
    simp only [applyVotes]
    by_cases hv : v ∈ ci.peerServerIds
    · simp only [addVoteFrom, if_pos hv]
      rcases List.mem_cons.mp hmem with heq | hrest
      · subst heq
        apply applyVotes_granted_mono
        by_cases hg : p ∈ cvs.granted
        · simp [hg]
        · simp [hg]
      · exact ih _ hrest
    · simp only [addVoteFrom, if_neg hv]
      rcases List.mem_cons.mp hmem with heq | hrest
      · subst heq
        exact absurd hp hv
      · exact ih cvs hrest

/-- C7: after any sequence of addVoteFrom calls with valid peer ids, adding a
vote from a peer that has already voted changes nothing: no error, the tally
is unchanged (so its size stays the same), and the returned flag reports
whether the tally is at or past quorum. -/
theorem candidateTally_duplicate_vote (ci : ClusterInfo) (vs : List String)
    (p : String) (hvalid : ∀ v ∈ vs, v ∈ ci.peerServerIds) (hpvs : p ∈ vs) :
    addVoteFrom ci (applyVotes ci (newCandidateVolatileState ci) vs) p =
      Except.ok
        (decide ((applyVotes ci (newCandidateVolatileState ci) vs).granted.length ≥
            (applyVotes ci (newCandidateVolatileState ci) vs).requiredVotes),
          applyVotes ci (newCandidateVolatileState ci) vs) := by
  have hp : p ∈ ci.peerServerIds := hvalid p hpvs
  have hmem : p ∈ (applyVotes ci (newCandidateVolatileState ci) vs).granted :=
    applyVotes_vote_recorded ci p hp vs _ hpvs
  simp only [addVoteFrom, if_pos hp, if_pos hmem]

/-- Witness for C7 at concrete inputs, mirroring the repository's candidate
tally test on the five-server cluster: after votes from 102, a duplicate 102
and 103 the tally holds three votes and is at quorum, and a further duplicate
vote from 103 is accepted, changes nothing, and reports quorum reached. -/
theorem candidateTally_duplicate_vote_witness :
    addVoteFrom ⟨"101", ["102", "103", "104", "105"], 5, 3⟩
        (applyVotes ⟨"101", ["102", "103", "104", "105"], 5, 3⟩
          (newCandidateVolatileState ⟨"101", ["102", "103", "104", "105"], 5, 3⟩)
          ["102", "102", "103"]) "103" =
      Except.ok (true, ⟨["103", "102", "101"], 3⟩) := by
  have h := candidateTally_duplicate_vote ⟨"101", ["102", "103", "104", "105"], 5, 3⟩
    ["102", "102", "103"] "103" (by decide) (by decide)
  rw [h]
  rfl

/-- C4: an AppendEntries reply processed while leader, for an RPC sent in the
current term (and not carrying a higher term, which would instead convert the
server to follower): on success the peer's matchIndex becomes the sent RPC's
prevLogIndex plus its number of entries and its nextIndex becomes one more;
on failure the peer's nextIndex is decremented with floor 1 and no matchIndex
changes. Other peers are untouched in both cases. -/
theorem appendEntriesReply_leader_updates (peers : List String)
    (currentTerm : Nat) (lvs : LeaderVolatileState) (peer : String)
    (sentRpc : AppendEntries) (reply : AppendEntriesReply)
    (hterm : sentRpc.term = currentTerm) (hrt : ¬ reply.term > currentTerm)
    (hpeer : peer ∈ peers) :
    ∃ lvs', processAppendEntriesReply peers currentTerm lvs peer sentRpc reply =
        Except.ok (AEReplyOutcome.updated lvs') ∧
      (reply.success = true →
        lvs'.matchIndex peer = sentRpc.prevLogIndex + sentRpc.entries.length ∧
        lvs'.nextIndex peer = sentRpc.prevLogIndex + sentRpc.entries.length + 1 ∧
        ∀ q, q ≠ peer →
          lvs'.matchIndex q = lvs.matchIndex q ∧ lvs'.nextIndex q = lvs.nextIndex q) ∧
      (reply.success = false →
        (2 ≤ lvs.nextIndex peer → lvs'.nextIndex peer = lvs.nextIndex peer - 1) ∧
        1 ≤ lvs'.nextIndex peer ∧
        (∀ q, lvs'.matchIndex q = lvs.matchIndex q) ∧
        ∀ q, q ≠ peer → lvs'.nextIndex q = lvs.nextIndex q) := by
  cases hs : reply.success
  · refine ⟨decrementNextIndex lvs peer, ?_, ?_, ?_⟩
    · simp [processAppendEntriesReply, hterm, hrt, hpeer, hs]
    · intro h
      exact Bool.noConfusion h
    · intro _
      refine ⟨?_, ?_, ?_, ?_⟩
      · intro h2
        simp only [decrementNextIndex, Function.update_same]
        have h1 : 1 ≤ lvs.nextIndex peer - 1 := by omega
        exact Nat.max_eq_left h1
      · simp only [decrementNextIndex, Function.update_same]
        exact le_max_right _ _
      · intro q
        rfl
      · intro q hq
        simp only [decrementNextIndex]
        exact Function.update_noteq hq _ _
  · refine ⟨setMatchIndexAndNextIndex lvs peer
      (sentRpc.prevLogIndex + sentRpc.entries.length), ?_, ?_, ?_⟩
    · simp [processAppendEntriesReply, hterm, hrt, hpeer, hs]
    · intro _
      refine ⟨?_, ?_, ?_⟩
      · simp only [setMatchIndexAndNextIndex, Function.update_same]
      · simp only [setMatchIndexAndNextIndex, Function.update_same]
      · intro q hq
        constructor
        · simp only [setMatchIndexAndNextIndex]
          exact Function.update_noteq hq _ _
        · simp only [setMatchIndexAndNextIndex]
          exact Function.update_noteq hq _ _
    · intro h
      exact Bool.noConfusion h

/-- Witness for C4 at concrete inputs mirroring the repository's leader-reply
tests: a same-term failure reply from peer 103 with all nextIndex at 11
decrements 103's nextIndex to 10 and leaves its matchIndex at 0. -/
theorem appendEntriesReply_leader_updates_witness :
    ∃ lvs', processAppendEntriesReply ["102", "103", "104", "105"] 8
        ⟨fun _ => 11, fun _ => 0⟩ "103" ⟨8, 10, 6, [], 0⟩ ⟨8, false⟩ =
          Except.ok (AEReplyOutcome.updated lvs') ∧
      lvs'.nextIndex "103" = 10 ∧ lvs'.matchIndex "103" = 0 := by
  obtain ⟨lvs', heq, -, hfail⟩ := appendEntriesReply_leader_updates
    ["102", "103", "104", "105"] 8 ⟨fun _ => 11, fun _ => 0⟩ "103"
    ⟨8, 10, 6, [], 0⟩ ⟨8, false⟩ rfl (by norm_num) (by simp)
  obtain ⟨hdec, -, hmatch, -⟩ := hfail rfl
  refine ⟨lvs', heq, ?_, ?_⟩
  · have := hdec (by norm_num)
    simpa using this
  · simpa using hmatch "103"

theorem senderUpToDate_iff (log : List LogEntry) (rv : RpcRequestVote) :
    ((if rv.lastLogTerm ≠ (getIndexAndTermOfLastEntry log).2 then
        (decide (rv.lastLogTerm > (getIndexAndTermOfLastEntry log).2))
      else (decide (rv.lastLogIndex ≥ (getIndexAndTermOfLastEntry log).1))) = true) ↔
      specUpToDate log rv := by
  unfold specUpToDate
  by_cases h : rv.lastLogTerm = (getIndexAndTermOfLastEntry log).2
  · simp [h, lt_self_iff_false]
  · simp [h]

theorem requestVote_grant_already_voted (t : RVState) (fromPeer : String)
    (rv : RpcRequestVote) (now : Nat)
    (hterm : rv.term = t.currentTerm)
    (hvf : t.votedFor = fromPeer) (hne : fromPeer ≠ "")
    (hutd : specUpToDate t.log rv) :
    rpc_RpcRequestVote t fromPeer rv now =
      (⟨t.currentTerm, true⟩, { t with electionTimerTouchedAt := some now }) := by
  have hlt : ¬ rv.term < t.currentTerm := by omega
  have hgt : ¬ rv.term > t.currentTerm := by omega
  have hnv : ¬ t.votedFor = "" := by
    rw [hvf]
    exact hne
  have hcond : (t.votedFor = "" ∨ t.votedFor = fromPeer) ∧
      ((if rv.lastLogTerm ≠ (getIndexAndTermOfLastEntry t.log).2 then
          (decide (rv.lastLogTerm > (getIndexAndTermOfLastEntry t.log).2))
        else (decide (rv.lastLogIndex ≥ (getIndexAndTermOfLastEntry t.log).1))) = true) :=
    ⟨Or.inr hvf, (senderUpToDate_iff t.log rv).mpr hutd⟩
  simp only [rpc_RpcRequestVote, if_neg hlt, if_neg hgt, if_pos hcond, if_neg hnv]

/-- C10: when the vote is granted to the peer that votedFor already equals
(term unchanged, candidate log still up to date), the receiver does not write
votedFor again, and re-delivering the same RequestVote produces the identical
granting reply and leaves currentTerm and votedFor unchanged; only the
election timer is touched. -/
theorem requestVote_repeat_grant (t : RVState) (fromPeer : String)
    (rv : RpcRequestVote) (now now2 : Nat)
    (hterm : rv.term = t.currentTerm)
    (hvf : t.votedFor = fromPeer) (hne : fromPeer ≠ "")
    (hutd : specUpToDate t.log rv) :
    rpc_RpcRequestVote t fromPeer rv now =
      (⟨t.currentTerm, true⟩, { t with electionTimerTouchedAt := some now }) ∧
    rpc_RpcRequestVote { t with electionTimerTouchedAt := some now } fromPeer rv now2 =
      (⟨t.currentTerm, true⟩, { t with electionTimerTouchedAt := some now2 }) := by
  constructor
  · exact requestVote_grant_already_voted t fromPeer rv now hterm hvf hne hutd
  · exact requestVote_grant_already_voted
      { t with electionTimerTouchedAt := some now } fromPeer rv now2 hterm hvf hne hutd

/-- Witness for C10 at concrete inputs: a follower at term 7 with the
Figure 7 log that already voted for 102 re-grants the same vote without
changing currentTerm or votedFor. -/
theorem requestVote_repeat_grant_witness :
    rpc_RpcRequestVote ⟨7, "102", fig7LeaderLineLog, none, 1⟩ "102" ⟨7, 10, 6⟩ 5 =
      (⟨7, true⟩, ⟨7, "102", fig7LeaderLineLog, some 5, 1⟩) ∧
    rpc_RpcRequestVote ⟨7, "102", fig7LeaderLineLog, some 5, 1⟩ "102" ⟨7, 10, 6⟩ 9 =
      (⟨7, true⟩, ⟨7, "102", fig7LeaderLineLog, some 9, 1⟩) := by
  exact requestVote_repeat_grant ⟨7, "102", fig7LeaderLineLog, none, 1⟩ "102" ⟨7, 10, 6⟩
    5 9 rfl rfl (by decide) (by decide)

theorem rpc_RpcRequestVote_characterize (t : RVState) (fromPeer : String)
    (rv : RpcRequestVote) (now : Nat) (hterm : rv.term = t.currentTerm) :
    rpc_RpcRequestVote t fromPeer rv now =
      if _h : (t.votedFor = "" ∨ t.votedFor = fromPeer) ∧ specUpToDate t.log rv then
        (⟨t.currentTerm, true⟩,
          { t with
              votedFor := if t.votedFor = "" then fromPeer else t.votedFor,
              setVotedForCalls :=
                if t.votedFor = "" then t.setVotedForCalls + 1 else t.setVotedForCalls,
              electionTimerTouchedAt := some now })
      else (⟨t.currentTerm, false⟩, t) := by
  have hlt : ¬ rv.term < t.currentTerm := by omega
  have hgt : ¬ rv.term > t.currentTerm := by omega
  by_cases h : (t.votedFor = "" ∨ t.votedFor = fromPeer) ∧ specUpToDate t.log rv
  · have hb : (t.votedFor = "" ∨ t.votedFor = fromPeer) ∧
        ((if rv.lastLogTerm ≠ (getIndexAndTermOfLastEntry t.log).2 then
            (decide (rv.lastLogTerm > (getIndexAndTermOfLastEntry t.log).2))
          else (decide (rv.lastLogIndex ≥ (getIndexAndTermOfLastEntry t.log).1))) = true) :=
      ⟨h.1, (senderUpToDate_iff t.log rv).mpr h.2⟩
    rw [dif_pos h]
    by_cases hv : t.votedFor = ""
    · simp only [rpc_RpcRequestVote, if_neg hlt, if_neg hgt, if_pos hb, if_pos hv]
    · simp only [rpc_RpcRequestVote, if_neg hlt, if_neg hgt, if_pos hb, if_neg hv]
  · have hb : ¬ ((t.votedFor = "" ∨ t.votedFor = fromPeer) ∧
        ((if rv.lastLogTerm ≠ (getIndexAndTermOfLastEntry t.log).2 then
            (decide (rv.lastLogTerm > (getIndexAndTermOfLastEntry t.log).2))
          else (decide (rv.lastLogIndex ≥ (getIndexAndTermOfLastEntry t.log).1))) = true)) :=
      fun hc => h ⟨hc.1, (senderUpToDate_iff t.log rv).mp hc.2⟩
    rw [dif_neg h]
    simp only [rpc_RpcRequestVote, if_neg hlt, if_neg hgt, if_neg hb]

theorem rpc_RpcRequestVote_adopts_higher_term (s : RVState) (fromPeer : String)
    (rv : RpcRequestVote) (now : Nat) (hgt : rv.term > s.currentTerm) :
    rpc_RpcRequestVote s fromPeer rv now =
      rpc_RpcRequestVote (becomeFollowerWithTerm s rv.term now) fromPeer rv now := by
  have hlt : ¬ rv.term < s.currentTerm := by omega
  have hlt2 : ¬ rv.term < (becomeFollowerWithTerm s rv.term now).currentTerm := by
    simp [becomeFollowerWithTerm]
  have hgt2 : ¬ rv.term > (becomeFollowerWithTerm s rv.term now).currentTerm := by
    simp [becomeFollowerWithTerm]
  conv_lhs => rw [rpc_RpcRequestVote]
  conv_rhs => rw [rpc_RpcRequestVote]
  rw [if_neg hlt, if_pos hgt, if_neg hlt2, if_neg hgt2]

/-- C2: for a RequestVote whose term is not below currentTerm, after a
strictly higher term has been adopted as follower, the vote is granted
exactly when votedFor is none or equals the requesting peer and the
candidate's log is at least as up to date (last term strictly greater, or
equal last term and last index at least the receiver's); the reply carries
the current term; on a grant with votedFor previously none, votedFor is
durably written to the peer, and the election timer is reset on every grant;
a refusal changes nothing. -/
theorem requestVote_grant_iff (s : RVState) (fromPeer : String)
    (rv : RpcRequestVote) (now : Nat) (s1 : RVState)
    (h1 : s.currentTerm ≤ rv.term)
    (hs1 : s1 = if rv.term > s.currentTerm then
      becomeFollowerWithTerm s rv.term now else s) :
    ((rpc_RpcRequestVote s fromPeer rv now).1.voteGranted = true ↔
      ((s1.votedFor = "" ∨ s1.votedFor = fromPeer) ∧ specUpToDate s.log rv)) ∧
    (rpc_RpcRequestVote s fromPeer rv now).1.term = s1.currentTerm ∧
    ((rpc_RpcRequestVote s fromPeer rv now).1.voteGranted = true →
      (s1.votedFor = "" →
        (rpc_RpcRequestVote s fromPeer rv now).2.votedFor = fromPeer ∧
        (rpc_RpcRequestVote s fromPeer rv now).2.setVotedForCalls =
          s1.setVotedForCalls + 1) ∧
      (rpc_RpcRequestVote s fromPeer rv now).2.electionTimerTouchedAt = some now) ∧
    ((rpc_RpcRequestVote s fromPeer rv now).1.voteGranted = false →
      (rpc_RpcRequestVote s fromPeer rv now).2 = s1) := by
  have hlog : s1.log = s.log := by
    rw [hs1]
    by_cases hgt : rv.term > s.currentTerm
    · rw [if_pos hgt]
      rfl
    · rw [if_neg hgt]
  have key : rpc_RpcRequestVote s fromPeer rv now =
      if _h : (s1.votedFor = "" ∨ s1.votedFor = fromPeer) ∧ specUpToDate s1.log rv then
        (⟨s1.currentTerm, true⟩,
          { s1 with
              votedFor := if s1.votedFor = "" then fromPeer else s1.votedFor,
              setVotedForCalls :=
                if s1.votedFor = "" then s1.setVotedForCalls + 1 else s1.setVotedForCalls,
              electionTimerTouchedAt := some now })
      else (⟨s1.currentTerm, false⟩, s1) := by
    subst hs1
    by_cases hgt : rv.term > s.currentTerm
    · rw [if_pos hgt, rpc_RpcRequestVote_adopts_higher_term s fromPeer rv now hgt]
      exact rpc_RpcRequestVote_characterize _ fromPeer rv now rfl
    · rw [if_neg hgt]
      exact rpc_RpcRequestVote_characterize s fromPeer rv now (by omega)
  rw [key]
  by_cases hc : (s1.votedFor = "" ∨ s1.votedFor = fromPeer) ∧ specUpToDate s1.log rv
  · rw [dif_pos hc]
    refine ⟨?_, rfl, ?_, ?_⟩
    · constructor
      · intro _
        exact ⟨hc.1, hlog ▸ hc.2⟩
      · intro _
        rfl
    · intro _
      refine ⟨?_, rfl⟩
      intro hv
      simp [hv]
    · intro hfalse
      exact Bool.noConfusion hfalse
  · rw [dif_neg hc]
    refine ⟨?_, rfl, ?_, ?_⟩
    · constructor
      · intro hfalse
        exact Bool.noConfusion hfalse
      · intro hrhs
        exact absurd ⟨hrhs.1, hlog ▸ hrhs.2⟩ hc
    · intro hfalse
      exact Bool.noConfusion hfalse
    · intro _
      rfl

/-- Witness for C2 at concrete inputs: a follower at term 7 with the Figure 7
log and no vote cast receives RequestVote(term 8, lastLogIndex 10,
lastLogTerm 6) from peer 102; the vote is granted, votedFor is written to
102, and the election timer is reset. -/
theorem requestVote_grant_iff_witness :
    (rpc_RpcRequestVote ⟨7, "", fig7LeaderLineLog, none, 0⟩ "102" ⟨8, 10, 6⟩ 5).1.voteGranted
        = true ∧
    (rpc_RpcRequestVote ⟨7, "", fig7LeaderLineLog, none, 0⟩ "102" ⟨8, 10, 6⟩ 5).1.term = 8 ∧
    (rpc_RpcRequestVote ⟨7, "", fig7LeaderLineLog, none, 0⟩ "102" ⟨8, 10, 6⟩ 5).2.votedFor
        = "102" ∧
    (rpc_RpcRequestVote ⟨7, "", fig7LeaderLineLog, none, 0⟩ "102" ⟨8, 10, 6⟩ 5).2.electionTimerTouchedAt
        = some 5 := by
  obtain ⟨hiff, hterm, hgrant, -⟩ := requestVote_grant_iff
    ⟨7, "", fig7LeaderLineLog, none, 0⟩ "102" ⟨8, 10, 6⟩ 5
    (becomeFollowerWithTerm ⟨7, "", fig7LeaderLineLog, none, 0⟩ 8 5)
    (by decide) (by rw [if_pos (by decide)])
  have hg : (rpc_RpcRequestVote ⟨7, "", fig7LeaderLineLog, none, 0⟩ "102" ⟨8, 10, 6⟩ 5).1.voteGranted
      = true := hiff.mpr ⟨Or.inl rfl, by decide⟩
  obtain ⟨hset, htimer⟩ := hgrant hg
  obtain ⟨hvf, -⟩ := hset rfl
  exact ⟨hg, hterm, hvf, htimer⟩

theorem processRpc_AppendEntries_mismatch (t : AEState) (ae : AppendEntries)
    (h1 : ¬ ae.term < t.currentTerm)
    (h2 : ¬ getIndexOfLastEntry t.log < ae.prevLogIndex)
    (h3 : termAtOrZero t.log ae.prevLogIndex ≠ ae.prevLogTerm)
    (h4 : t.logCommitIndex < ae.prevLogIndex) :
    processRpc_AppendEntries t ae =
      Except.ok (false, { t with log := t.log.take (ae.prevLogIndex - 1) }) := by
  have hdel : deleteFromIndexToEnd t.logCommitIndex t.log ae.prevLogIndex =
      Except.ok (t.log.take (ae.prevLogIndex - 1)) := by
    unfold deleteFromIndexToEnd
    rw [if_neg (by omega)]
  simp only [processRpc_AppendEntries, if_neg h1, if_neg h2, if_pos h3, hdel]

/-- Counterexample to C1 as stated: the specification's scenario 5 input -
AppendEntries(term 7, prevLogIndex 10, prevLogTerm 5, no entries) against a
term 7 receiver holding the 10-entry Figure 7 log - is answered (7, false),
but the log is NOT left unchanged: the receiver deletes the entry at
prevLogIndex, leaving 9 entries. -/
theorem appendEntries_mismatch_counterexample :
    rpc_RpcAppendEntries ⟨7, "", fig7LeaderLineLog, 0, 0⟩ ⟨7, 10, 5, [], 0⟩ =
      Except.ok (⟨7, false⟩, ⟨7, "", fig7LeaderLineLog.take 9, 0, 0⟩) ∧
    fig7LeaderLineLog.take 9 ≠ fig7LeaderLineLog := by
  constructor
  · rfl
  · decide

/-- C1 amended: for an AppendEntries whose term is not below currentTerm,
whose prevLogIndex is within the log, and whose prevLogTerm differs from the
term recorded at prevLogIndex (the mismatch index lying above the commit
index reported to the log, else the deletion is a fatal error), the receiver
replies (currentTerm, false) AFTER deleting the entries from prevLogIndex
through the end of the log; commitIndex is unchanged. -/
theorem appendEntries_mismatch_truncates (s : AEState) (ae : AppendEntries)
    (h1 : s.currentTerm ≤ ae.term)
    (h2 : ae.prevLogIndex ≤ getIndexOfLastEntry s.log)
    (h3 : termAtOrZero s.log ae.prevLogIndex ≠ ae.prevLogTerm)
    (h4 : s.logCommitIndex < ae.prevLogIndex) :
    ∃ s', rpc_RpcAppendEntries s ae = Except.ok (⟨ae.term, false⟩, s') ∧
      s'.log = s.log.take (ae.prevLogIndex - 1) ∧
      s'.commitIndex = s.commitIndex ∧
      s'.currentTerm = ae.term := by
  by_cases hgt : ae.term > s.currentTerm
  · have hmain := processRpc_AppendEntries_mismatch
      { s with currentTerm := ae.term, votedFor := "" } ae
      (by exact lt_irrefl ae.term) (by exact not_lt.mpr h2) (by exact h3) (by exact h4)
    refine ⟨{ s with currentTerm := ae.term, votedFor := "", log := s.log.take (ae.prevLogIndex - 1) }, ?_, rfl, rfl, rfl⟩
    simp only [rpc_RpcAppendEntries, if_pos hgt, hmain]
  · have heq : ae.term = s.currentTerm := by omega
    have hmain := processRpc_AppendEntries_mismatch s ae
      (by exact not_lt.mpr h1) (by exact not_lt.mpr h2) h3 h4
    refine ⟨{ s with log := s.log.take (ae.prevLogIndex - 1) }, ?_, rfl, rfl, heq.symm⟩
    rw [heq]
    simp only [rpc_RpcAppendEntries, if_neg hgt, hmain]

/-- Witness for the amended C1 at the scenario 5 input: the reply is
(7, false), the log is truncated to its first 9 entries, and commitIndex
stays 0. -/
theorem appendEntries_mismatch_truncates_witness :
    ∃ s', rpc_RpcAppendEntries ⟨7, "", fig7LeaderLineLog, 0, 0⟩ ⟨7, 10, 5, [], 0⟩ =
        Except.ok (⟨7, false⟩, s') ∧
      s'.log = fig7LeaderLineLog.take 9 ∧ s'.commitIndex = 0 := by
  obtain ⟨s', hrun, hlog, hci, -⟩ := appendEntries_mismatch_truncates
    ⟨7, "", fig7LeaderLineLog, 0, 0⟩ ⟨7, 10, 5, [], 0⟩
    (by decide) (by decide) (by decide) (by decide)
  exact ⟨s', hrun, hlog, hci⟩

theorem processRpc_AppendEntries_success (t : AEState) (ae : AppendEntries)
    (h1 : ¬ ae.term < t.currentTerm)
    (_h2 : ¬ getIndexOfLastEntry t.log < ae.prevLogIndex)
    (h3 : ¬ termAtOrZero t.log ae.prevLogIndex ≠ ae.prevLogTerm)
    (h4 : ¬ ae.prevLogIndex < t.logCommitIndex)
    (h5 : ¬ t.log.length < ae.prevLogIndex) :
    processRpc_AppendEntries t ae =
      Except.ok (true,
        { t with
            log := t.log.take ae.prevLogIndex ++ ae.entries,
            commitIndex :=
              if ae.leaderCommit > t.commitIndex then
                min ae.leaderCommit (t.log.take ae.prevLogIndex ++ ae.entries).length
              else t.commitIndex }) := by
  have happ : appendEntriesAfterIndex t.logCommitIndex t.log ae.entries ae.prevLogIndex =
      Except.ok (t.log.take ae.prevLogIndex ++ ae.entries) := by
    unfold appendEntriesAfterIndex
    rw [if_neg h4, if_neg h5]
  simp only [processRpc_AppendEntries, if_neg h1, if_neg _h2, if_neg h3, happ,
    getIndexOfLastEntry]
  by_cases hc1 : ae.leaderCommit > t.commitIndex
  · rw [if_pos hc1, if_pos hc1]
    by_cases hc2 : ae.leaderCommit < (t.log.take ae.prevLogIndex ++ ae.entries).length
    · rw [if_pos hc2, Nat.min_eq_left (le_of_lt hc2), if_neg h5]
    · rw [if_neg hc2, Nat.min_eq_right (not_lt.mp hc2), if_neg h5]
  · rw [if_neg hc1, if_neg hc1, if_neg h5]

/-- Counterexample to C5 as stated: an AppendEntries with prevLogIndex 0 but
a nonzero prevLogTerm is NOT treated as a trivially passing match check by
the receiver: against a term 7 receiver with the Figure 7 log it is rejected
with (7, false) - and the conflict deletion wipes the log - instead of the
entries being appended with a success reply. -/
theorem appendEntries_prevZero_counterexample :
    rpc_RpcAppendEntries ⟨7, "", fig7LeaderLineLog, 0, 0⟩ ⟨7, 0, 5, [⟨7, "cx"⟩], 0⟩ =
      Except.ok (⟨7, false⟩, ⟨7, "", [], 0, 0⟩) := by
  rfl

/-- C5 amended: for an AppendEntries whose term is not below currentTerm,
whose prevLogIndex is 0 and whose prevLogTerm is 0 (the value a leader always
sends alongside prevLogIndex 0), received while the log has no reported
committed entries, the match check passes, the entries replace the log and
the receiver replies success. -/
theorem appendEntries_prevZero_succeeds (s : AEState) (ae : AppendEntries)
    (h1 : s.currentTerm ≤ ae.term) (hp : ae.prevLogIndex = 0)
    (hpt : ae.prevLogTerm = 0) (hlc : s.logCommitIndex = 0) :
    ∃ s', rpc_RpcAppendEntries s ae = Except.ok (⟨ae.term, true⟩, s') ∧
      s'.log = ae.entries ∧ s'.currentTerm = ae.term := by
  have h3 : ¬ termAtOrZero s.log ae.prevLogIndex ≠ ae.prevLogTerm := by
    rw [hp, hpt]
    simp [termAtOrZero]
  have h2 : ¬ getIndexOfLastEntry s.log < ae.prevLogIndex := by
    rw [hp]
    exact Nat.not_lt_zero _
  have h4 : ¬ ae.prevLogIndex < s.logCommitIndex := by
    rw [hp, hlc]
    exact lt_irrefl 0
  have h5 : ¬ s.log.length < ae.prevLogIndex := by
    rw [hp]
    exact Nat.not_lt_zero _
  by_cases hgt : ae.term > s.currentTerm
  · have hmain := processRpc_AppendEntries_success
      { s with currentTerm := ae.term, votedFor := "" } ae
      (by exact lt_irrefl ae.term) (by exact h2) (by exact h3) (by exact h4) (by exact h5)
    refine ⟨{ s with currentTerm := ae.term, votedFor := "", log := s.log.take ae.prevLogIndex ++ ae.entries, commitIndex := if ae.leaderCommit > s.commitIndex then min ae.leaderCommit (s.log.take ae.prevLogIndex ++ ae.entries).length else s.commitIndex }, ?_, ?_, rfl⟩
    · simp only [rpc_RpcAppendEntries, if_pos hgt, hmain]
    · simp [hp]
  · have heq : ae.term = s.currentTerm := by omega
    have hmain := processRpc_AppendEntries_success s ae
      (by exact not_lt.mpr h1) h2 h3 h4 h5
    refine ⟨{ s with log := s.log.take ae.prevLogIndex ++ ae.entries, commitIndex := if ae.leaderCommit > s.commitIndex then min ae.leaderCommit (s.log.take ae.prevLogIndex ++ ae.entries).length else s.commitIndex }, ?_, ?_, heq.symm⟩
    · rw [heq]
      simp only [rpc_RpcAppendEntries, if_neg hgt, hmain]
    · simp [hp]

/-- Witness for the amended C5: a heartbeat-style AppendEntries with
prevLogIndex 0, prevLogTerm 0 and two entries against a receiver with an
empty log and nothing committed is accepted and installs the entries. -/
theorem appendEntries_prevZero_succeeds_witness :
    ∃ s', rpc_RpcAppendEntries ⟨7, "", [], 0, 0⟩ ⟨7, 0, 0, [⟨7, "c1"⟩, ⟨7, "c2"⟩], 0⟩ =
        Except.ok (⟨7, true⟩, s') ∧
      s'.log = [⟨7, "c1"⟩, ⟨7, "c2"⟩] := by
  obtain ⟨s', hrun, hlog, -⟩ := appendEntries_prevZero_succeeds
    ⟨7, "", [], 0, 0⟩ ⟨7, 0, 0, [⟨7, "c1"⟩, ⟨7, "c2"⟩], 0⟩ (by decide) rfl rfl rfl
  exact ⟨s', hrun, hlog⟩

theorem processRpc_commitIndex_bounds (t : AEState) (ae : AppendEntries)
    (hwf1 : t.logCommitIndex = t.commitIndex)
    (hwf2 : t.commitIndex ≤ getIndexOfLastEntry t.log) :
    ∀ b s', processRpc_AppendEntries t ae = Except.ok (b, s') →
      t.commitIndex ≤ s'.commitIndex ∧
      s'.commitIndex ≤ getIndexOfLastEntry s'.log ∧
      (b = true →
        s'.commitIndex = if ae.leaderCommit > t.commitIndex then
          min ae.leaderCommit (getIndexOfLastEntry s'.log) else t.commitIndex) := by
  intro b s' hrun
  simp only [getIndexOfLastEntry] at hwf2 ⊢
  by_cases hb1 : ae.term < t.currentTerm
  · simp only [processRpc_AppendEntries, if_pos hb1] at hrun
    injection Except.ok.inj hrun with hb hs
    subst hs
    subst hb
    exact ⟨le_refl _, hwf2, fun hb2 => Bool.noConfusion hb2⟩
  · by_cases hb2 : getIndexOfLastEntry t.log < ae.prevLogIndex
    · simp only [processRpc_AppendEntries, if_neg hb1, if_pos hb2] at hrun
      injection Except.ok.inj hrun with hb hs
      subst hs
      subst hb
      exact ⟨le_refl _, hwf2, fun hb3 => Bool.noConfusion hb3⟩
    · by_cases hb3 : termAtOrZero t.log ae.prevLogIndex ≠ ae.prevLogTerm
      · simp only [processRpc_AppendEntries, if_neg hb1, if_neg hb2, if_pos hb3] at hrun
        by_cases hg : ae.prevLogIndex - 1 < t.logCommitIndex
        · simp only [deleteFromIndexToEnd, if_pos hg] at hrun
          exact Except.noConfusion hrun
        · simp only [deleteFromIndexToEnd, if_neg hg] at hrun
          injection Except.ok.inj hrun with hb hs
          subst hs
          subst hb
          refine ⟨le_refl _, ?_, fun hb3 => Bool.noConfusion hb3⟩
          simp only [List.length_take]
          have h5 : t.logCommitIndex ≤ ae.prevLogIndex - 1 := by omega
          have h6 : t.commitIndex ≤ t.log.length := hwf2
          have h7 : t.commitIndex ≤ ae.prevLogIndex - 1 := by omega
          exact le_min h7 h6
      · by_cases hg1 : ae.prevLogIndex < t.logCommitIndex
        · simp only [processRpc_AppendEntries, if_neg hb1, if_neg hb2, if_neg hb3,
            appendEntriesAfterIndex, if_pos hg1] at hrun
          exact Except.noConfusion hrun
        · by_cases hg2 : t.log.length < ae.prevLogIndex
          · simp only [processRpc_AppendEntries, if_neg hb1, if_neg hb2, if_neg hb3,
              appendEntriesAfterIndex, if_neg hg1, if_pos hg2] at hrun
            exact Except.noConfusion hrun
          · have hmain := processRpc_AppendEntries_success t ae hb1 hb2 hb3 hg1 hg2
            rw [hmain] at hrun
            injection Except.ok.inj hrun with hb hs
            subst hs
            subst hb
            have hlen : (t.log.take ae.prevLogIndex ++ ae.entries).length =
                ae.prevLogIndex + ae.entries.length := by
              rw [List.length_append, List.length_take,
                Nat.min_eq_left (not_lt.mp hg2)]
            have hcip : t.commitIndex ≤ ae.prevLogIndex := by omega
            by_cases hc1 : ae.leaderCommit > t.commitIndex
            · rw [if_pos hc1]
              refine ⟨?_, ?_, fun _ => ?_⟩
              · simp only [if_pos hc1]
                rw [hlen]
                omega
              · simp only [if_pos hc1]
                rw [hlen]
                omega
              · simp only [if_pos hc1]
            · rw [if_neg hc1]
              refine ⟨?_, ?_, fun _ => ?_⟩
              · simp only [if_neg hc1]
                exact le_refl _
              · simp only [if_neg hc1]
                rw [hlen]
                omega
              · simp only [if_neg hc1]


theorem foldlMax_ge (P : Nat → Prop) [DecidablePred P] :
    ∀ (l : List Nat) (acc : Nat),
      acc ≤ l.foldl (fun a n => if P n then max a n else a) acc := by
  intro l
  induction l with
  | nil =>
    intro acc
    exact le_refl acc
  | cons x xs ih =>
    intro acc
    simp only [List.foldl_cons]
    by_cases hx : P x
    · rw [if_pos hx]
      exact le_trans (le_max_left acc x) (ih (max acc x))
    · rw [if_neg hx]
      exact ih acc

theorem foldlMax_le_bound (P : Nat → Prop) [DecidablePred P] (B : Nat) :
    ∀ (l : List Nat) (acc : Nat), (∀ n ∈ l, n ≤ B) → acc ≤ B →
      l.foldl (fun a n => if P n then max a n else a) acc ≤ B := by
  intro l
  induction l with
  | nil =>
    intro acc _ hacc
    exact hacc
  | cons x xs ih =>
    intro acc hmem hacc
    simp only [List.foldl_cons]
    by_cases hx : P x
    · rw [if_pos hx]
      refine ih (max acc x) (fun n hn => hmem n (List.mem_cons_of_mem x hn)) ?_
      exact max_le hacc (hmem x (List.mem_cons_self x xs))
    · rw [if_neg hx]
      exact ih acc (fun n hn => hmem n (List.mem_cons_of_mem x hn)) hacc

/-- C6: over an AppendEntries operation (from a state whose commit index is
within the log and matches the one reported to the log), commitIndex never
decreases and stays at most the index of the last entry; on a success reply
it is raised exactly to the minimum of leaderCommit and the index of the last
entry when leaderCommit is ahead, and otherwise unchanged; the log's commit
listener accepts exactly the values that are at least the previously reported
one and at most the end of the log; and the leader's commit-index
recomputation never lowers commitIndex and never takes it past the end of the
log. -/
theorem appendEntries_commitIndex_invariant (s : AEState) (ae : AppendEntries)
    (hwf1 : s.logCommitIndex = s.commitIndex)
    (hwf2 : s.commitIndex ≤ getIndexOfLastEntry s.log) :
    (∀ reply s', rpc_RpcAppendEntries s ae = Except.ok (reply, s') →
      s.commitIndex ≤ s'.commitIndex ∧
      s'.commitIndex ≤ getIndexOfLastEntry s'.log ∧
      (reply.success = true →
        s'.commitIndex = if ae.leaderCommit > s.commitIndex then
          min ae.leaderCommit (getIndexOfLastEntry s'.log) else s.commitIndex)) ∧
    (∀ cur iole newCI : Nat,
      (∃ r, commitIndexChanged cur iole newCI = Except.ok r) ↔
        cur ≤ newCI ∧ newCI ≤ iole) ∧
    (∀ ts : TickState, ts.commitIndex ≤ advanceCommitIndex ts ∧
      (ts.commitIndex ≤ getIndexOfLastEntry ts.log →
        advanceCommitIndex ts ≤ getIndexOfLastEntry ts.log)) := by
  refine ⟨?_, ?_, ?_⟩
  · intro reply s' hrun
    by_cases hgt : ae.term > s.currentTerm
    · simp only [rpc_RpcAppendEntries, if_pos hgt] at hrun
      cases hcore : processRpc_AppendEntries { s with currentTerm := ae.term, votedFor := "" } ae with
      | error e =>
        rw [hcore] at hrun
        exact Except.noConfusion hrun
      | ok r =>
        obtain ⟨b, s2⟩ := r
        rw [hcore] at hrun
        injection Except.ok.inj hrun with hr hs
        subst hs
        subst hr
        have hcb := processRpc_commitIndex_bounds
          { s with currentTerm := ae.term, votedFor := "" } ae
          (by exact hwf1) (by exact hwf2) b s2 hcore
        exact ⟨hcb.1, hcb.2.1, fun hsucc => hcb.2.2 hsucc⟩
    · simp only [rpc_RpcAppendEntries, if_neg hgt] at hrun
      cases hcore : processRpc_AppendEntries s ae with
      | error e =>
        rw [hcore] at hrun
        exact Except.noConfusion hrun
      | ok r =>
        obtain ⟨b, s2⟩ := r
        rw [hcore] at hrun
        injection Except.ok.inj hrun with hr hs
        subst hs
        subst hr
        have hcb := processRpc_commitIndex_bounds s ae hwf1 hwf2 b s2 hcore
        exact ⟨hcb.1, hcb.2.1, fun hsucc => hcb.2.2 hsucc⟩
  · intro cur iole newCI
    constructor
    · rintro ⟨r, hr⟩
      by_cases hA : newCI < cur
      · rw [commitIndexChanged, if_pos hA] at hr
        exact Except.noConfusion hr
      · rw [commitIndexChanged, if_neg hA] at hr
        by_cases hB : newCI > iole
        · rw [if_pos hB] at hr
          exact Except.noConfusion hr
        · exact ⟨by omega, by omega⟩
    · rintro ⟨hA, hB⟩
      refine ⟨newCI, ?_⟩
      rw [commitIndexChanged, if_neg (by omega), if_neg (by omega)]
  · intro ts
    constructor
    · exact foldlMax_ge _ _ _
    · intro hle
      unfold advanceCommitIndex
      refine foldlMax_le_bound _ _ _ _ ?_ hle
      intro n hn
      have hlt := List.mem_range.mp hn
      simp only [getIndexOfLastEntry] at hlt ⊢
      omega

/-- Witness for C6 at a concrete input: appending entry 11 at term 7 with
leaderCommit 11 onto the Figure 7 log with commitIndex 0 succeeds and the
resulting commitIndex 11 respects the monotonicity and range bounds. -/
theorem appendEntries_commitIndex_invariant_witness :
    rpc_RpcAppendEntries ⟨7, "", fig7LeaderLineLog, 0, 0⟩ ⟨7, 10, 6, [⟨7, "c11"⟩], 11⟩ =
      Except.ok (⟨7, true⟩, ⟨7, "", fig7LeaderLineLog ++ [⟨7, "c11"⟩], 0, 11⟩) ∧
    (0 : Nat) ≤ 11 ∧
    (11 : Nat) ≤ getIndexOfLastEntry (fig7LeaderLineLog ++ [⟨7, "c11"⟩]) := by
  have hrun : rpc_RpcAppendEntries ⟨7, "", fig7LeaderLineLog, 0, 0⟩ ⟨7, 10, 6, [⟨7, "c11"⟩], 11⟩ =
      Except.ok (⟨7, true⟩, ⟨7, "", fig7LeaderLineLog ++ [⟨7, "c11"⟩], 0, 11⟩) := by
    rfl
  obtain ⟨hmain, -⟩ := appendEntries_commitIndex_invariant
    ⟨7, "", fig7LeaderLineLog, 0, 0⟩ ⟨7, 10, 6, [⟨7, "c11"⟩], 11⟩ rfl (by decide)
  have h := hmain ⟨7, true⟩ ⟨7, "", fig7LeaderLineLog ++ [⟨7, "c11"⟩], 0, 11⟩ hrun
  exact ⟨hrun, h.1, h.2.1⟩

/-- Counterexample to C3 as stated: in the single-server cluster starting as
follower at term 7 with the 10-entry Figure 7 log, the first tick past the
election timeout does make the server leader at term 8, but commitIndex is 0,
not 10: no entry carries term 8, so the term-safety filter blocks any
commit. -/
theorem soloElection_commit_counterexample :
    (tick soloStartState 150).role = ServerRole.leader ∧
    (tick soloStartState 150).currentTerm = 8 ∧
    (tick soloStartState 150).commitIndex = 0 ∧
    ¬ (tick soloStartState 150).commitIndex = 10 := by
  decide

/-- C3 amended: in the single-server cluster starting as follower at term 7
with the 10-entry Figure 7 log, the first tick past the election timeout
makes the server leader at term 8 having voted for itself, with commitIndex
equal to 0; the commit recomputation of the following tick also leaves
commitIndex at 0, because every log entry is from a term below 8. -/
theorem soloElection_leader_at_term8 :
    (tick soloStartState 150).role = ServerRole.leader ∧
    (tick soloStartState 150).currentTerm = 8 ∧
    (tick soloStartState 150).votedFor = "101" ∧
    (tick soloStartState 150).commitIndex = 0 ∧
    advanceCommitIndex (tick soloStartState 150) = 0 ∧
    (tick (tick soloStartState 150) 180).commitIndex = 0 := by
  decide
